import Mathlib

/-!
# Verification of the livecore ELF core dumper

A shallow embedding, in Lean 4, of the pure computational core of the
`livecore` low-pause core dumper: the ELF core serializer
(`internal/elfcore`), the staging buffer manager (`internal/buffer`),
the pre-copy loop (`internal/copy`), the thread freeze controller
(`internal/proc`), and the orchestrator's type conversions (`main`).

Go byte slices are modelled as `List Nat` (each element a byte value),
machine integers as `Nat` with explicit `% 2^w` where Go truncates,
fallible functions as `Except`/`Option`, and the kernel/IO surface
(files under `/proc`, ptrace results) as explicit function parameters
describing the observed world.
-/

set_option maxHeartbeats 1000000
set_option maxRecDepth 40000

namespace Livecore

/-! ## Byte-level helpers (encoding/binary, Go `copy`) -/

/-- Little-endian 16-bit encoding, as `binary.LittleEndian.PutUint16`.
The `% 256` projections make the Go `uint16(x)` truncation explicit. -/
def uint16LE (v : Nat) : List Nat := [v % 256, v / 256 % 256]

/-- Little-endian 32-bit encoding, as `binary.LittleEndian.PutUint32`. -/
def uint32LE (v : Nat) : List Nat :=
  [v % 256, v / 256 % 256, v / 65536 % 256, v / 16777216 % 256]

/-- Little-endian 64-bit encoding, as `binary.LittleEndian.PutUint64`. -/
def uint64LE (v : Nat) : List Nat :=
  [v % 256, v / 256 % 256, v / 65536 % 256, v / 16777216 % 256,
   v / 4294967296 % 256, v / 1099511627776 % 256,
   v / 281474976710656 % 256, v / 72057594037927936 % 256]

/-- Helper: `overwrite dst off src` models Go's `copy(dst[off:off+len(src)], src)`
when the write fits inside `dst` (which holds at every use site below). -/
def overwrite (dst : List Nat) (off : Nat) (src : List Nat) : List Nat :=
  dst.take off ++ src ++ dst.drop (off + src.length)

theorem overwrite_length {dst src : List Nat} {off : Nat}
    (h : off + src.length ≤ dst.length) :
    (overwrite dst off src).length = dst.length := by
  simp only [overwrite, List.length_append, List.length_take, List.length_drop]
  omega

theorem overwrite_getElem?_lt {dst src : List Nat} {off i : Nat}
    (hoff : off + src.length ≤ dst.length) (h : i < off) :
    (overwrite dst off src)[i]? = dst[i]? := by
  have hlen : (dst.take off).length = off := by
    simp [List.length_take]; omega
  rw [overwrite, List.append_assoc, List.getElem?_append_left (by omega),
    List.getElem?_take_of_lt h]

theorem overwrite_getElem?_mid {dst src : List Nat} {off i : Nat}
    (hoff : off + src.length ≤ dst.length)
    (h1 : off ≤ i) (h2 : i < off + src.length) :
    (overwrite dst off src)[i]? = src[i - off]? := by
  have hlen : (dst.take off).length = off := by
    simp [List.length_take]; omega
  rw [overwrite, List.append_assoc,
    List.getElem?_append_right (by omega), hlen,
    List.getElem?_append_left (by omega)]

theorem overwrite_getElem?_ge {dst src : List Nat} {off i : Nat}
    (hoff : off + src.length ≤ dst.length)
    (h : off + src.length ≤ i) :
    (overwrite dst off src)[i]? = dst[i]? := by
  have hlen : (dst.take off).length = off := by
    simp [List.length_take]; omega
  rcases Nat.lt_or_ge i dst.length with hi | hi
  · rw [overwrite, List.append_assoc,
      List.getElem?_append_right (by omega)]
    rw [hlen, List.getElem?_append_right (by omega), List.getElem?_drop]
    congr 1
    omega
  · have hove : (overwrite dst off src).length = dst.length := overwrite_length hoff
    rw [List.getElem?_eq_none (by omega), List.getElem?_eq_none (by omega)]

theorem overwrite_getD_lt {dst src : List Nat} {off i : Nat}
    (hoff : off + src.length ≤ dst.length) (h : i < off) :
    (overwrite dst off src).getD i 0 = dst.getD i 0 := by
  simp [List.getD_eq_getElem?_getD, overwrite_getElem?_lt hoff h]

theorem overwrite_getD_mid {dst src : List Nat} {off i : Nat}
    (hoff : off + src.length ≤ dst.length)
    (h1 : off ≤ i) (h2 : i < off + src.length) :
    (overwrite dst off src).getD i 0 = src.getD (i - off) 0 := by
  simp [List.getD_eq_getElem?_getD, overwrite_getElem?_mid hoff h1 h2]

theorem overwrite_getD_ge {dst src : List Nat} {off i : Nat}
    (hoff : off + src.length ≤ dst.length)
    (h : off + src.length ≤ i) :
    (overwrite dst off src).getD i 0 = dst.getD i 0 := by
  simp [List.getD_eq_getElem?_getD, overwrite_getElem?_ge hoff h]

theorem getD_zero_of_le {l : List Nat} {i : Nat} (h : l.length ≤ i) :
    l.getD i 0 = 0 := by
  simp [List.getD_eq_getElem?_getD, List.getElem?_eq_none h]

theorem take_getD_lt {l : List Nat} {n i : Nat} (h : i < n) :
    (l.take n).getD i 0 = l.getD i 0 := by
  simp [List.getD_eq_getElem?_getD, List.getElem?_take_of_lt h]

theorem replicate_getD_zero (n i : Nat) :
    (List.replicate n (0 : Nat)).getD i 0 = 0 := by
  rcases Nat.lt_or_ge i n with h | h
  · simp [List.getD_eq_getElem?_getD, List.getElem?_replicate, h]
  · have : (List.replicate n (0 : Nat))[i]? = none :=
      List.getElem?_eq_none (by simpa using h)
    simp [List.getD_eq_getElem?_getD, this]

/-! ## ELF core data model (internal/elfcore/types.go) -/

/-- ELF note types (internal/elfcore/types.go). -/
def NT_PRSTATUS : Nat := 1
def NT_FPREGSET : Nat := 2
def NT_PRPSINFO : Nat := 3
def NT_AUXV : Nat := 6
def NT_XSTATE : Nat := 0x202
def NT_FILE : Nat := 0x46494c45

/-- Permission bits (internal/elfcore/types.go `Perm`). -/
def PermRead : Nat := 1
def PermWrite : Nat := 2
def PermExec : Nat := 4

/-- A two-letter smaps advisory flag (`VMFlag [2]byte`). -/
abbrev VMFlag := Char × Char

/-- The MADV_DONTDUMP advisory flag (`vmFlagDD`). -/
def vmFlagDD : VMFlag := ('d', 'd')

/-- Go `elfcore.VMA` (internal/elfcore/types.go). -/
structure VMA where
  start : Nat
  «end» : Nat
  perms : Nat
  offset : Nat
  dev : Nat
  inode : Nat
  path : String
  kind : Nat
  vmFlags : List VMFlag
  isZero : Bool
  fileOffset : Nat
  memSize : Nat
  deriving Repr, DecidableEq

/-- Go `VMA.Size` returns `MemSize` (internal/elfcore/types.go). -/
def VMA.Size (vma : VMA) : Nat := vma.memSize

/-- Go `isVsyscallVMA` (internal/elfcore/types.go). -/
def isVsyscallVMA (vma : VMA) : Bool :=
  decide (0xffffffffff600000 ≤ vma.start) && decide (vma.start < 0xffffffffff601000)

/-- Go `isReadableVMA` (internal/elfcore/types.go): read or write bit set. -/
def isReadableVMA (vma : VMA) : Bool :=
  decide (vma.perms &&& (PermRead ||| PermWrite) ≠ 0)

/-- Go `VMA.IsDumpable` (internal/elfcore/types.go): excluded when flagged
"dd", when in the vsyscall address range, or when neither readable nor
writable. -/
def VMA.IsDumpable (vma : VMA) : Bool :=
  if vma.vmFlags.contains vmFlagDD then false
  else if isVsyscallVMA vma then false
  else if !isReadableVMA vma then false
  else true

/-- Go `elfcore.Thread` (internal/elfcore/types.go). -/
structure Thread where
  tid : Nat
  registers : List Nat
  deriving Repr, DecidableEq

/-- Go `elfcore.Note` (internal/elfcore/types.go). -/
structure Note where
  name : String
  type : Nat
  data : List Nat
  deriving Repr, DecidableEq

/-- Go `elfcore.FileEntry` (internal/elfcore/types.go). -/
structure FileEntry where
  start : Nat
  «end» : Nat
  fileOfs : Nat
  dev : Nat
  inode : Nat
  path : String
  deriving Repr, DecidableEq

/-- Go `elfcore.CoreInfo` (internal/elfcore/types.go). -/
structure CoreInfo where
  pid : Nat
  threads : List Thread
  vmas : List VMA
  notes : List Note
  fileTable : List FileEntry
  deriving Repr

/-! ## NT_PRSTATUS note construction (internal/elfcore/notes.go)

The repository snapshot carries two historical copies of
`createPRStatusNote`; the one at the canonical path
`internal/elfcore/notes.go` lays the body out as the 336-byte x86-64
`prstatus_t` (thread id at byte 32, register block at byte 112), which
is the layout the repository's GDB-based validation exercises. That
copy is embedded here. -/

/-- Go `createPRStatusNote` (internal/elfcore/notes.go lines 138-191):
a 336-byte zeroed body, the thread id as little-endian `uint32` at
offset 32, and up to 216 bytes of register data copied at offset 112. -/
def createPRStatusNote (thread : Thread) : Note :=
  let prstatus := List.replicate 336 0
  let prstatus := overwrite prstatus 32 (uint32LE thread.tid)
  let prstatus :=
    if thread.registers.length > 0 then
      let copyLen := min thread.registers.length 216
      overwrite prstatus 112 (thread.registers.take copyLen)
    else prstatus
  { name := "CORE", type := NT_PRSTATUS, data := prstatus }

theorem uint32LE_length (v : Nat) : (uint32LE v).length = 4 := rfl

/-- C1: for every thread, the serialized NT_PRSTATUS note body is
exactly 336 bytes: bytes 0-31 zero, the thread id as a 4-byte
little-endian value at offset 32, bytes 36-111 zero, the 216-byte
register block at offset 112 (zero-padded when the register buffer is
empty or short), and the trailing fp-valid bytes (328-335) zero. -/
theorem createPRStatusNote_layout (t : Thread) :
    ((createPRStatusNote t).data).length = 336 ∧
    (∀ i, i < 32 → ((createPRStatusNote t).data).getD i 0 = 0) ∧
    (∀ i, i < 4 →
      ((createPRStatusNote t).data).getD (32 + i) 0 = (uint32LE t.tid).getD i 0) ∧
    (∀ i, 36 ≤ i → i < 112 → ((createPRStatusNote t).data).getD i 0 = 0) ∧
    (∀ i, i < 216 →
      ((createPRStatusNote t).data).getD (112 + i) 0 =
        (t.registers.take 216).getD i 0) ∧
    (∀ i, 328 ≤ i → i < 336 → ((createPRStatusNote t).data).getD i 0 = 0) := by
  have h0len : (List.replicate 336 (0 : Nat)).length = 336 := by
    rw [List.length_replicate]
  have hoff1 : 32 + (uint32LE t.tid).length ≤ (List.replicate 336 (0 : Nat)).length := by
    rw [uint32LE_length, h0len]; omega
  have h1len :
      (overwrite (List.replicate 336 0) 32 (uint32LE t.tid)).length = 336 := by
    rw [overwrite_length hoff1]; exact h0len
  have hd0 : (createPRStatusNote t).data =
      (if t.registers.length > 0 then
        overwrite (overwrite (List.replicate 336 0) 32 (uint32LE t.tid)) 112
          (t.registers.take (min t.registers.length 216))
      else overwrite (List.replicate 336 0) 32 (uint32LE t.tid)) := rfl
  -- facts about the intermediate buffer (after the tid write)
  have p1lt : ∀ i, i < 32 →
      (overwrite (List.replicate 336 0) 32 (uint32LE t.tid)).getD i 0 = 0 := by
    intro i hi
    rw [overwrite_getD_lt hoff1 hi, replicate_getD_zero]
  have p1mid : ∀ i, i < 4 →
      (overwrite (List.replicate 336 0) 32 (uint32LE t.tid)).getD (32 + i) 0 =
        (uint32LE t.tid).getD i 0 := by
    intro i hi
    rw [overwrite_getD_mid hoff1 (by omega) (by rw [uint32LE_length]; omega)]
    congr 1
    omega
  have p1ge : ∀ i, 36 ≤ i →
      (overwrite (List.replicate 336 0) 32 (uint32LE t.tid)).getD i 0 = 0 := by
    intro i hi
    rw [overwrite_getD_ge hoff1 (by rw [uint32LE_length]; omega), replicate_getD_zero]
  rcases Nat.eq_zero_or_pos t.registers.length with hz | hp
  · -- empty register buffer: the second overwrite is skipped
    have hnil : t.registers = [] := List.length_eq_zero.mp hz
    have hd : (createPRStatusNote t).data =
        overwrite (List.replicate 336 0) 32 (uint32LE t.tid) := by
      rw [hd0, if_neg (by omega)]
    rw [hd]
    refine ⟨h1len, p1lt, p1mid, fun i h36 _ => p1ge i h36, ?_, fun i h _ => p1ge i (by omega)⟩
    intro i hi
    rw [p1ge (112 + i) (by omega)]
    simp [hnil]
  · -- non-empty register buffer: up to 216 bytes copied at offset 112
    have hd : (createPRStatusNote t).data =
        overwrite (overwrite (List.replicate 336 0) 32 (uint32LE t.tid)) 112
          (t.registers.take (min t.registers.length 216)) := by
      rw [hd0, if_pos (by omega)]
    have hs2 : (t.registers.take (min t.registers.length 216)).length =
        min t.registers.length 216 := by
      rw [List.length_take]; omega
    have hoff2 : 112 + (t.registers.take (min t.registers.length 216)).length ≤
        (overwrite (List.replicate 336 0) 32 (uint32LE t.tid)).length := by
      rw [hs2, h1len]; omega
    rw [hd]
    refine ⟨?_, ?_, ?_, ?_, ?_, ?_⟩
    · rw [overwrite_length hoff2, h1len]
    · intro i hi
      rw [overwrite_getD_lt hoff2 (by omega), p1lt i hi]
    · intro i hi
      rw [overwrite_getD_lt hoff2 (by omega), p1mid i hi]
    · intro i h36 h112
      rw [overwrite_getD_lt hoff2 (by omega), p1ge i h36]
    · intro i hi
      by_cases hmid : i < min t.registers.length 216
      · rw [overwrite_getD_mid hoff2 (by omega) (by rw [hs2]; omega)]
        have hidx : 112 + i - 112 = i := by omega
        rw [hidx, take_getD_lt hmid, take_getD_lt hi]
      · rw [overwrite_getD_ge hoff2 (by rw [hs2]; omega), p1ge (112 + i) (by omega)]
        have hlen216 : (t.registers.take 216).length ≤ i := by
          rw [List.length_take]; omega
        rw [getD_zero_of_le hlen216]
    · intro i h328 h336
      rw [overwrite_getD_ge hoff2 (by rw [hs2]; omega), p1ge i (by omega)]

/-- Witness for C1 at a concrete thread (tid 1234, a 2-byte register
buffer), with every hypothesis discharged concretely. -/
theorem createPRStatusNote_layout_witness :
    ((createPRStatusNote ⟨1234, [5, 6]⟩).data).length = 336 ∧
    ((createPRStatusNote ⟨1234, [5, 6]⟩).data).getD 0 0 = 0 ∧
    ((createPRStatusNote ⟨1234, [5, 6]⟩).data).getD (32 + 1) 0 =
      (uint32LE 1234).getD 1 0 ∧
    ((createPRStatusNote ⟨1234, [5, 6]⟩).data).getD 40 0 = 0 ∧
    ((createPRStatusNote ⟨1234, [5, 6]⟩).data).getD (112 + 1) 0 =
      (([5, 6] : List Nat).take 216).getD 1 0 ∧
    ((createPRStatusNote ⟨1234, [5, 6]⟩).data).getD 330 0 = 0 := by
  obtain ⟨w1, w2, w3, w4, w5, w6⟩ := createPRStatusNote_layout ⟨1234, [5, 6]⟩
  exact ⟨w1, w2 0 (by decide), w3 1 (by decide), w4 40 (by decide) (by decide),
    w5 1 (by decide), w6 330 (by decide) (by decide)⟩

/-! ## NT_AUXV note construction (internal/elfcore notes, evolved copy)

`createAuxvNote` reads `/proc/<pid>/auxv`; the embedding takes the raw
file contents as the `auxvData` parameter. -/

/-- Go `createAuxvNote` on the raw auxv bytes: rejects a length that is
not a multiple of 16; appends one 16-byte zero AT_NULL entry when the
data does not already end in one (or is empty). -/
def createAuxvNote (auxvData : List Nat) : Except String Note :=
  if auxvData.length % 16 ≠ 0 then
    .error "invalid auxv data length"
  else
    let auxvData :=
      if 16 ≤ auxvData.length then
        let lastEntry := auxvData.drop (auxvData.length - 16)
        if lastEntry.all (fun b => b == 0) then auxvData
        else auxvData ++ List.replicate 16 0
      else if auxvData.length = 0 then List.replicate 16 0
      else auxvData
    .ok { name := "CORE", type := NT_AUXV, data := auxvData }

/-- C5: building the NT_AUXV note from content `c` fails when
`c.length` is not a multiple of 16; copies `c` byte for byte when `c`
already ends in a 16-byte all-zero AT_NULL entry; and otherwise
appends exactly one trailing 16-byte zero entry. -/
theorem createAuxvNote_spec (c : List Nat) :
    (c.length % 16 ≠ 0 → createAuxvNote c = .error "invalid auxv data length") ∧
    (c.length % 16 = 0 →
      16 ≤ c.length → (c.drop (c.length - 16)).all (fun b => b == 0) = true →
      createAuxvNote c = .ok { name := "CORE", type := NT_AUXV, data := c }) ∧
    (c.length % 16 = 0 →
      ¬(16 ≤ c.length ∧ (c.drop (c.length - 16)).all (fun b => b == 0) = true) →
      createAuxvNote c =
        .ok { name := "CORE", type := NT_AUXV, data := c ++ List.replicate 16 0 }) := by
  refine ⟨?_, ?_, ?_⟩
  · intro hbad
    rw [createAuxvNote, if_pos hbad]
  · intro hmod h16 hzeros
    rw [createAuxvNote, if_neg (by omega), if_pos h16, if_pos hzeros]
  · intro hmod hnot
    rw [createAuxvNote, if_neg (by omega)]
    by_cases h16 : 16 ≤ c.length
    · have hz : ¬((c.drop (c.length - 16)).all (fun b => b == 0) = true) := by
        intro hz; exact hnot ⟨h16, hz⟩
      rw [if_pos h16, if_neg hz]
    · have hlen : c.length = 0 := by omega
      have hnil : c = [] := List.length_eq_zero.mp hlen
      rw [if_neg h16, if_pos hlen, hnil, List.nil_append]

/-- Witness for C5: a 16-byte body of ones gets exactly one AT_NULL
entry appended; hypotheses discharged at the concrete input. -/
theorem createAuxvNote_spec_witness :
    createAuxvNote (List.replicate 16 1) =
      .ok { name := "CORE", type := NT_AUXV,
            data := List.replicate 16 1 ++ List.replicate 16 0 } := by
  have h := (createAuxvNote_spec (List.replicate 16 1)).2.2
  exact h (by decide) (by decide)

/-! ## ELF writer layout (internal/elfcore/writer.go) -/

/-- Go `elfHeaderSize` (internal/elfcore/writer.go). -/
def elfHeaderSize : Nat := 64

/-- Go `calculateNoteSize` (internal/elfcore notes): 12-byte header plus
the name (with terminator) and data, each padded to a multiple of 4. -/
def calculateNoteSize (note : Note) : Nat :=
  let nameSize := note.name.length + 1
  let nameSize := if nameSize % 4 ≠ 0 then (nameSize + 3) / 4 * 4 else nameSize
  let dataSize := note.data.length
  let dataSize := if dataSize % 4 ≠ 0 then (dataSize + 3) / 4 * 4 else dataSize
  12 + nameSize + dataSize

/-- Go `getDumpableVMAs` (internal/elfcore/writer.go lines 327-336). -/
def getDumpableVMAs (info : CoreInfo) : List VMA :=
  info.vmas.filter VMA.IsDumpable

/-- Go `calculateNoteLayout` (internal/elfcore/writer.go lines 71-86):
returns `(noteSize, noteOffset)`. -/
def calculateNoteLayout (info : CoreInfo) : Nat × Nat :=
  let phdrSize := 56
  let phdrCount := (getDumpableVMAs info).length + 1
  let noteOffset := elfHeaderSize + phdrCount * phdrSize
  let noteSize := (info.notes.map calculateNoteSize).sum
  (noteSize, noteOffset)

/-- Struct `LoadSegment` (internal/elfcore/writer.go). -/
structure LoadSegment where
  vma : VMA
  offset : Nat
  deriving Repr, DecidableEq

/-- The loop body of `calculateLoadSegments`: one segment per VMA, the
running offset advanced by `vma.Size()` each step. -/
def calcSegsAux : List VMA → Nat → List LoadSegment
  | [], _ => []
  | v :: rest, offset => ⟨v, offset⟩ :: calcSegsAux rest (offset + v.Size)

/-- Go `calculateLoadSegments` (internal/elfcore/writer.go lines 88-103). -/
def calculateLoadSegments (info : CoreInfo) (noteEnd : Nat) : List LoadSegment :=
  calcSegsAux (getDumpableVMAs info) noteEnd

/-- Go `WriteCore`'s layout step (internal/elfcore/writer.go lines 42-46):
the load segments are computed from `noteOffset + noteSize`. -/
def writeCoreLoadSegments (info : CoreInfo) : List LoadSegment :=
  calculateLoadSegments info ((calculateNoteLayout info).2 + (calculateNoteLayout info).1)

theorem calcSegsAux_length (vs : List VMA) (off : Nat) :
    (calcSegsAux vs off).length = vs.length := by
  induction vs generalizing off with
  | nil => rfl
  | cons v rest ih => simp [calcSegsAux, ih]

theorem calcSegsAux_get_zero (vs : List VMA) (off : Nat)
    (h : 0 < (calcSegsAux vs off).length) :
    ((calcSegsAux vs off).get ⟨0, h⟩).offset = off := by
  cases vs with
  | nil => simp [calcSegsAux] at h
  | cons v rest => rfl

theorem calcSegsAux_get_succ (vs : List VMA) (off i : Nat)
    (h : i + 1 < (calcSegsAux vs off).length) :
    ((calcSegsAux vs off).get ⟨i + 1, h⟩).offset =
      ((calcSegsAux vs off).get ⟨i, by omega⟩).offset +
      ((calcSegsAux vs off).get ⟨i, by omega⟩).vma.Size := by
  induction vs generalizing off i with
  | nil => simp [calcSegsAux] at h
  | cons v rest ih =>
    cases i with
    | zero =>
      have hrest : 0 < (calcSegsAux rest (off + v.Size)).length := by
        have := calcSegsAux_length rest (off + v.Size)
        have hl := calcSegsAux_length (v :: rest) off
        simp [calcSegsAux] at h
        omega
      show ((calcSegsAux rest (off + v.Size)).get ⟨0, _⟩).offset = off + v.Size
      exact calcSegsAux_get_zero rest (off + v.Size) hrest
    | succ j =>
      have hrest : j + 1 < (calcSegsAux rest (off + v.Size)).length := by
        simp [calcSegsAux] at h
        omega
      show ((calcSegsAux rest (off + v.Size)).get ⟨j + 1, _⟩).offset = _
      rw [ih (off + v.Size) j hrest]
      rfl

/-- C2: the note segment sits at file offset `64 + (n+1)*56` for `n`
dumpable regions; the first PT_LOAD's bytes start at that offset plus
the note segment size, and each subsequent PT_LOAD's offset is the
previous offset plus the previous region's size. -/
theorem coreLayout_spec (info : CoreInfo) :
    (calculateNoteLayout info).2 = 64 + ((getDumpableVMAs info).length + 1) * 56 ∧
    (writeCoreLoadSegments info).length = (getDumpableVMAs info).length ∧
    (∀ h : 0 < (writeCoreLoadSegments info).length,
      ((writeCoreLoadSegments info).get ⟨0, h⟩).offset =
        64 + ((getDumpableVMAs info).length + 1) * 56 + (calculateNoteLayout info).1) ∧
    (∀ i, ∀ h : i + 1 < (writeCoreLoadSegments info).length,
      ((writeCoreLoadSegments info).get ⟨i + 1, h⟩).offset =
        ((writeCoreLoadSegments info).get ⟨i, by omega⟩).offset +
        ((writeCoreLoadSegments info).get ⟨i, by omega⟩).vma.Size) := by
  refine ⟨rfl, ?_, ?_, ?_⟩
  · exact calcSegsAux_length _ _
  · intro h
    exact calcSegsAux_get_zero _ _ h
  · intro i h
    exact calcSegsAux_get_succ (getDumpableVMAs info) _ i h

/-- A small readable/writable anonymous region used by witnesses. -/
def sampleVMA (a size : Nat) : VMA :=
  { start := a, «end» := a + size, perms := 3, offset := 0, dev := 0,
    inode := 0, path := "", kind := 0, vmFlags := [], isZero := false,
    fileOffset := 0, memSize := size }

/-- A sample core description with two dumpable regions and one note. -/
def sampleInfo : CoreInfo :=
  { pid := 1, threads := [],
    vmas := [sampleVMA 4096 8192, sampleVMA 65536 4096],
    notes := [{ name := "CORE", type := NT_PRSTATUS, data := List.replicate 4 0 }],
    fileTable := [] }

/-- Witness for C2 on `sampleInfo` (n = 2, note size 24): note segment
at 64 + 3*56 = 232, first PT_LOAD at 256, second at 256 + 8192. -/
theorem coreLayout_spec_witness :
    (calculateNoteLayout sampleInfo).2 = 232 ∧
    (writeCoreLoadSegments sampleInfo).length = 2 ∧
    ((writeCoreLoadSegments sampleInfo).get ⟨0, by decide⟩).offset = 256 ∧
    ((writeCoreLoadSegments sampleInfo).get ⟨1, by decide⟩).offset = 256 + 8192 := by
  obtain ⟨w1, w2, w3, w4⟩ := coreLayout_spec sampleInfo
  refine ⟨by rw [w1]; decide, by rw [w2]; decide, ?_, ?_⟩
  · rw [w3 (by decide)]; decide
  · rw [w4 0 (by decide), w3 (by decide)]; decide

/-! ## ELF header and program headers (internal/elfcore/writer.go) -/

/-- ELF constants (internal/elfcore/types.go). -/
def ElfClass64 : Nat := 2
def ElfData2LSB : Nat := 1
def ElfVersion : Nat := 1
def ET_CORE : Nat := 4
def PT_NOTE : Nat := 4
def PT_LOAD : Nat := 1

/-- Go `GetELFMachine` (internal/elfcore/types.go): `elf.EM_X86_64 = 62`. -/
def GetELFMachine : Nat := 62

/-- Go `writeELFHeader` (internal/elfcore/writer.go lines 107-175): the
64-byte ELF file header. The `e_phnum` field at bytes 56-57 is stored
through Go's `uint16(phnum)` conversion, i.e. the modelled `uint16LE`
truncation. -/
def writeELFHeader (phnum : Nat) : List Nat :=
  let header := List.replicate 64 0
  let header := overwrite header 0 [0x7f, 0x45, 0x4c, 0x46]
  let header := overwrite header 4 [ElfClass64]
  let header := overwrite header 5 [ElfData2LSB]
  let header := overwrite header 6 [ElfVersion]
  let header := overwrite header 7 [0]
  let header := overwrite header 8 [0]
  let header := overwrite header 9 (List.replicate 7 0)
  let header := overwrite header 16 (uint16LE ET_CORE)
  let header := overwrite header 18 (uint16LE GetELFMachine)
  let header := overwrite header 20 (uint32LE ElfVersion)
  let header := overwrite header 24 (uint64LE 0)
  let header := overwrite header 32 (uint64LE 64)
  let header := overwrite header 40 (uint64LE 0)
  let header := overwrite header 48 (uint32LE 0)
  let header := overwrite header 52 (uint16LE 64)
  let header := overwrite header 54 (uint16LE 56)
  let header := overwrite header 56 (uint16LE phnum)
  let header := overwrite header 58 (uint16LE 0)
  let header := overwrite header 60 (uint16LE 0)
  let header := overwrite header 62 (uint16LE 0)
  header

/-- Go `createNotePhdr` (internal/elfcore/writer.go lines 200-229). -/
def createNotePhdr (offset size : Nat) : List Nat :=
  let phdr := List.replicate 56 0
  let phdr := overwrite phdr 0 (uint32LE PT_NOTE)
  let phdr := overwrite phdr 4 (uint32LE 4)
  let phdr := overwrite phdr 8 (uint64LE offset)
  let phdr := overwrite phdr 16 (uint64LE 0)
  let phdr := overwrite phdr 24 (uint64LE 0)
  let phdr := overwrite phdr 32 (uint64LE size)
  let phdr := overwrite phdr 40 (uint64LE size)
  let phdr := overwrite phdr 48 (uint64LE 0)
  phdr

/-- Go `createLoadPhdr` (internal/elfcore/writer.go lines 231-267):
flags are PF_R plus PF_W/PF_X from the region's permission bits. -/
def createLoadPhdr (segment : LoadSegment) : List Nat :=
  let flags := 4
  let flags := if segment.vma.perms &&& PermWrite ≠ 0 then flags ||| 2 else flags
  let flags := if segment.vma.perms &&& PermExec ≠ 0 then flags ||| 1 else flags
  let phdr := List.replicate 56 0
  let phdr := overwrite phdr 0 (uint32LE PT_LOAD)
  let phdr := overwrite phdr 4 (uint32LE flags)
  let phdr := overwrite phdr 8 (uint64LE segment.offset)
  let phdr := overwrite phdr 16 (uint64LE segment.vma.start)
  let phdr := overwrite phdr 24 (uint64LE segment.vma.start)
  let phdr := overwrite phdr 32 (uint64LE segment.vma.Size)
  let phdr := overwrite phdr 40 (uint64LE segment.vma.Size)
  let phdr := overwrite phdr 48 (uint64LE 4096)
  phdr

/-- Go `writeProgramHeaders` (internal/elfcore/writer.go lines 177-198):
the PT_NOTE header followed by one PT_LOAD header per segment, modelled
as the ordered list of 56-byte blocks written to the table. -/
def writeProgramHeaders (info : CoreInfo) : List (List Nat) :=
  createNotePhdr (calculateNoteLayout info).2 (calculateNoteLayout info).1 ::
    (writeCoreLoadSegments info).map createLoadPhdr

/-- The ELF header, fully evaluated: only bytes 56-57 depend on the
program header count. -/
theorem writeELFHeader_eq (phnum : Nat) :
    writeELFHeader phnum =
      [0x7f, 0x45, 0x4c, 0x46, 2, 1, 1, 0,
       0, 0, 0, 0, 0, 0, 0, 0,
       4, 0, 62, 0, 1, 0, 0, 0,
       0, 0, 0, 0, 0, 0, 0, 0,
       64, 0, 0, 0, 0, 0, 0, 0,
       0, 0, 0, 0, 0, 0, 0, 0,
       0, 0, 0, 0, 64, 0, 56, 0,
       phnum % 256, phnum / 256 % 256, 0, 0, 0, 0, 0, 0] := rfl

/-- C10: the ELF header's `e_phnum` field is the 16-bit value
`(dumpable regions + 1) mod 2^16` — for 65536 or more program headers
the stored count silently wraps, with no failure and no PN_XNUM escape
(`e_shnum` stays 0) — while the program-header table itself still
contains all `n + 1` entries. -/
theorem writeELFHeader_phnum_wraps (info : CoreInfo) :
    (writeELFHeader ((getDumpableVMAs info).length + 1)).length = 64 ∧
    ((writeELFHeader ((getDumpableVMAs info).length + 1)).getD 56 0 +
      256 * ((writeELFHeader ((getDumpableVMAs info).length + 1)).getD 57 0) =
        ((getDumpableVMAs info).length + 1) % 65536) ∧
    ((writeELFHeader ((getDumpableVMAs info).length + 1)).getD 58 0 = 0 ∧
      (writeELFHeader ((getDumpableVMAs info).length + 1)).getD 59 0 = 0) ∧
    (writeProgramHeaders info).length = (getDumpableVMAs info).length + 1 := by
  rw [writeELFHeader_eq]
  refine ⟨rfl, ?_, ⟨rfl, rfl⟩, ?_⟩
  · show ((getDumpableVMAs info).length + 1) % 256 +
      256 * (((getDumpableVMAs info).length + 1) / 256 % 256) =
      ((getDumpableVMAs info).length + 1) % 65536
    omega
  · show ((writeCoreLoadSegments info).map createLoadPhdr).length + 1 =
      (getDumpableVMAs info).length + 1
    rw [List.length_map]
    rw [show (writeCoreLoadSegments info).length = (getDumpableVMAs info).length from
      calcSegsAux_length _ _]

/-! ## VMA discovery and the orchestrator's conversion
(internal/proc/maps.go, main package part_017) -/

/-- Go `proc.VMA` (internal/proc/maps.go). -/
structure ProcVMA where
  start : Nat
  «end» : Nat
  perms : Nat
  offset : Nat
  dev : Nat
  inode : Nat
  path : String
  kind : Nat
  vmFlags : List VMFlag
  isZero : Bool
  fileOffset : Nat
  memSize : Nat
  deriving Repr, DecidableEq

/-- The permission-parsing fragment of `parseMapsLine`
(internal/proc/maps.go lines 120-131): one bit per letter found in the
permission column. -/
def parsePermString (perms : String) : Nat :=
  let permFlags := 0
  let permFlags := if 'r' ∈ perms.data then permFlags ||| PermRead else permFlags
  let permFlags := if 'w' ∈ perms.data then permFlags ||| PermWrite else permFlags
  let permFlags := if 'x' ∈ perms.data then permFlags ||| PermExec else permFlags
  permFlags

/-- The zero-fill classification fragment of `parseMapsLine`
(internal/proc/maps.go lines 173-180). -/
def parseIsZero (perms path : String) : Bool :=
  perms == "---p" ||
  decide (List.IsInfix "[vvar]".data path.data) ||
  decide (List.IsInfix "[vvar_vclock]".data path.data) ||
  decide (List.IsInfix "[vdso]".data path.data) ||
  decide (List.IsInfix "[vsyscall]".data path.data)

/-- The per-element body of `convertVMAs` (main package, part_017
lines 469-487). The Go struct literal lists `Start, End, Perms, Offset,
Dev, Inode, Path, Kind, FileOffset, MemSize` only, so `VmFlags` and
`IsZero` are left at their Go zero values (`nil`, `false`). -/
def convertVMA (vma : ProcVMA) : VMA :=
  { start := vma.start, «end» := vma.«end», perms := vma.perms,
    offset := vma.offset, dev := vma.dev, inode := vma.inode,
    path := vma.path, kind := vma.kind,
    vmFlags := [],
    isZero := false,
    fileOffset := vma.fileOffset, memSize := vma.memSize }

/-- Go `convertVMAs` (main package, part_017 lines 469-487). -/
def convertVMAs (vmas : List ProcVMA) : List VMA :=
  vmas.map convertVMA

/-- A readable+writable anonymous region carrying the "dd"
(MADV_DONTDUMP) advisory flag, as parsed from maps+smaps. -/
def ddProcVMA : ProcVMA :=
  { start := 0x1000, «end» := 0x2000, perms := 3, offset := 0, dev := 0,
    inode := 0, path := "", kind := 0, vmFlags := [vmFlagDD],
    isZero := false, fileOffset := 0, memSize := 0x1000 }

/-- A core description holding only the converted "dd" region. -/
def ddInfo : CoreInfo :=
  { pid := 1, threads := [], vmas := convertVMAs [ddProcVMA],
    notes := [], fileTable := [] }

/-- C3: `convertVMAs` never copies the smaps advisory flag vector, so
the serializer's dumpable filter cannot see "dd" and a do-not-dump
region that is readable or writable still receives a PT_LOAD entry —
contradicting the documented MADV_DONTDUMP handling. -/
theorem convertVMAs_drops_dontdump :
    (∀ v : ProcVMA, (convertVMA v).vmFlags = []) ∧
    ddProcVMA.vmFlags.contains vmFlagDD = true ∧
    (convertVMA ddProcVMA).IsDumpable = true ∧
    writeCoreLoadSegments ddInfo = [{ vma := convertVMA ddProcVMA, offset := 176 }] := by
  exact ⟨fun v => rfl, rfl, rfl, rfl⟩

theorem calcSegsAux_vma_mem (vs : List VMA) (off : Nat) (seg : LoadSegment)
    (h : seg ∈ calcSegsAux vs off) : seg.vma ∈ vs := by
  induction vs generalizing off with
  | nil => simp [calcSegsAux] at h
  | cons v rest ih =>
    rcases h with h | h
    · simp
    · exact List.mem_cons_of_mem _ (ih _ ‹_›)

theorem IsDumpable_false_of_noperm (v : VMA)
    (h : v.perms &&& (PermRead ||| PermWrite) = 0) :
    v.IsDumpable = false := by
  have hr : isReadableVMA v = false := by
    simp [isReadableVMA, h]
  rw [VMA.IsDumpable, hr]
  split <;> simp

/-- C4 (amended): a region with neither read nor write permission —
e.g. one whose permission string is "---p" — is not dumpable, and the
serializer produces no PT_LOAD segment for it. -/
theorem noPerm_not_dumpable (info : CoreInfo) (v : VMA)
    (hperm : v.perms &&& (PermRead ||| PermWrite) = 0) :
    v ∉ getDumpableVMAs info ∧
    ∀ seg ∈ writeCoreLoadSegments info, seg.vma ≠ v := by
  have hnd := IsDumpable_false_of_noperm v hperm
  constructor
  · intro hmem
    have := (List.mem_filter.mp hmem).2
    rw [hnd] at this
    exact Bool.false_ne_true this
  · intro seg hseg heq
    have hmem : seg.vma ∈ getDumpableVMAs info :=
      calcSegsAux_vma_mem _ _ _ hseg
    have := (List.mem_filter.mp hmem).2
    rw [heq, hnd] at this
    exact Bool.false_ne_true this

/-- A "---p" region as `parseMapsLine` produces it: parsed permission
bits 0, classified zero-fill. -/
def noPermProcVMA : ProcVMA :=
  { start := 0x5000, «end» := 0x6000, perms := parsePermString "---p",
    offset := 0, dev := 0, inode := 0, path := "", kind := 0,
    vmFlags := [], isZero := parseIsZero "---p" "", fileOffset := 0,
    memSize := 0x1000 }

/-- A core description holding only the converted "---p" region. -/
def noPermInfo : CoreInfo :=
  { pid := 1, threads := [], vmas := convertVMAs [noPermProcVMA],
    notes := [], fileTable := [] }

/-- C4 counterexample: a "---p" region parses to permission bits 0 and
is classified zero-fill, yet after conversion it is filtered out as
non-dumpable, so the core file contains no PT_LOAD entry at all for it
— the claimed filesz = memsz PT_LOAD with sparse zero contents does
not exist. -/
theorem noPermRegion_counterexample :
    parsePermString "---p" = 0 ∧
    parseIsZero "---p" "" = true ∧
    (convertVMA noPermProcVMA).IsDumpable = false ∧
    writeCoreLoadSegments noPermInfo = [] := by
  exact ⟨rfl, rfl, rfl, rfl⟩

/-- Witness for the amended C4 at the concrete "---p" region. -/
theorem noPerm_not_dumpable_witness :
    convertVMA noPermProcVMA ∉ getDumpableVMAs noPermInfo ∧
    ∀ seg ∈ writeCoreLoadSegments noPermInfo, seg.vma ≠ convertVMA noPermProcVMA :=
  noPerm_not_dumpable noPermInfo (convertVMA noPermProcVMA) (by decide)

/-! ## Staging buffer manager (internal/buffer/manager.go) -/

/-- The alignment step of `GetOffsetForVMA` (manager.go line 101):
Go computes `(nextOffset + bs - 1) &^ (bs - 1)`; `Nat.ldiff` is
bitwise AND NOT. -/
def alignUpMask (n bs : Nat) : Nat :=
  Nat.ldiff (n + bs - 1) (bs - 1)

/-- Go `buffer.Manager`'s allocation state (manager.go): the allocation
map keyed by `(vma start, vma size)`, the bump cursor, and the
filesystem block size. (The file descriptor and mmap are I/O state and
are not part of the allocation logic.) -/
structure Manager where
  allocations : List ((Nat × Nat) × Nat)
  nextOffset : Nat
  fsBlockSize : Nat
  deriving Repr, DecidableEq

/-- Lookup in the allocation map (Go `bm.allocations[key]`). -/
def lookupAlloc : List ((Nat × Nat) × Nat) → Nat × Nat → Option Nat
  | [], _ => none
  | (k, v) :: rest, key => if k = key then some v else lookupAlloc rest key

/-- Go `GetOffsetForVMA` (manager.go lines 89-108): return the previous
offset for a seen `(start, size)` pair, else bump the cursor rounded up
to the block alignment and record the new entry. -/
def GetOffsetForVMA (bm : Manager) (vmaStart vmaSize : Nat) : Nat × Manager :=
  match lookupAlloc bm.allocations (vmaStart, vmaSize) with
  | some offset => (offset, bm)
  | none =>
    let alignedOffset := alignUpMask bm.nextOffset bm.fsBlockSize
    (alignedOffset,
      { bm with
        allocations := ((vmaStart, vmaSize), alignedOffset) :: bm.allocations,
        nextOffset := alignedOffset + vmaSize })

/-- An arbitrary interleaved sequence of further allocation calls. -/
def runCalls (bm : Manager) (calls : List (Nat × Nat)) : Manager :=
  calls.foldl (fun bm k => (GetOffsetForVMA bm k.1 k.2).2) bm

/-- The Go mask trick evaluated: clearing the low `k` bits is division
rounding down by `2^k`. -/
theorem ldiff_two_pow_sub_one (m k : Nat) :
    Nat.ldiff m (2 ^ k - 1) = 2 ^ k * (m / 2 ^ k) := by
  apply Nat.eq_of_testBit_eq
  intro i
  rw [Nat.testBit_ldiff, Nat.testBit_two_pow_sub_one, Nat.testBit_mul_pow_two]
  rcases Nat.lt_or_ge i k with h | h
  · simp [h, Nat.not_le.2 h]
  · have h1 : ¬i < k := Nat.not_lt.2 h
    simp only [h1, decide_False, Bool.not_false, Bool.and_true, ge_iff_le, h,
      decide_True, Bool.true_and]
    rw [← Nat.shiftRight_eq_div_pow, Nat.testBit_shiftRight]
    congr 1
    omega

theorem alignUpMask_two_pow (n k : Nat) :
    alignUpMask n (2 ^ k) = 2 ^ k * ((n + 2 ^ k - 1) / 2 ^ k) := by
  rw [alignUpMask, ldiff_two_pow_sub_one]

theorem alignUpMask_dvd (n k : Nat) : 2 ^ k ∣ alignUpMask n (2 ^ k) := by
  rw [alignUpMask_two_pow]
  exact Dvd.intro _ rfl

theorem le_alignUpMask_two_pow (n k : Nat) : n ≤ alignUpMask n (2 ^ k) := by
  rw [alignUpMask_two_pow]
  have hpos : 0 < 2 ^ k := Nat.pos_pow_of_pos k (by omega)
  have hmod := Nat.div_add_mod (n + 2 ^ k - 1) (2 ^ k)
  have hlt : (n + 2 ^ k - 1) % 2 ^ k < 2 ^ k := Nat.mod_lt _ hpos
  omega

theorem GetOffsetForVMA_fsBlockSize (bm : Manager) (s z : Nat) :
    ((GetOffsetForVMA bm s z).2).fsBlockSize = bm.fsBlockSize := by
  rw [GetOffsetForVMA]
  cases lookupAlloc bm.allocations (s, z) <;> rfl

theorem GetOffsetForVMA_preserves (bm : Manager) (s z : Nat) (key : Nat × Nat) (v : Nat)
    (h : lookupAlloc bm.allocations key = some v) :
    lookupAlloc ((GetOffsetForVMA bm s z).2).allocations key = some v := by
  rw [GetOffsetForVMA]
  cases hl : lookupAlloc bm.allocations (s, z) with
  | some o => exact h
  | none =>
    show lookupAlloc (((s, z), _) :: bm.allocations) key = some v
    rw [lookupAlloc]
    split
    · rename_i heq
      rw [heq] at hl
      rw [hl] at h
      exact absurd h (by simp)
    · exact h

theorem GetOffsetForVMA_mono (bm : Manager) (s z k : Nat)
    (hbs : bm.fsBlockSize = 2 ^ k) :
    bm.nextOffset ≤ ((GetOffsetForVMA bm s z).2).nextOffset := by
  rw [GetOffsetForVMA]
  cases lookupAlloc bm.allocations (s, z) with
  | some o => exact Nat.le_refl _
  | none =>
    show bm.nextOffset ≤ alignUpMask bm.nextOffset bm.fsBlockSize + z
    rw [hbs]
    exact Nat.le_trans (le_alignUpMask_two_pow _ _) (Nat.le_add_right _ _)

theorem GetOffsetForVMA_lookup_self (bm : Manager) (s z : Nat) :
    lookupAlloc ((GetOffsetForVMA bm s z).2).allocations (s, z) =
      some (GetOffsetForVMA bm s z).1 := by
  rw [GetOffsetForVMA]
  cases hl : lookupAlloc bm.allocations (s, z) with
  | some o => exact hl
  | none =>
    show lookupAlloc (((s, z), _) :: bm.allocations) (s, z) = _
    rw [lookupAlloc, if_pos rfl]

theorem runCalls_fsBlockSize (bm : Manager) (calls : List (Nat × Nat)) :
    (runCalls bm calls).fsBlockSize = bm.fsBlockSize := by
  induction calls generalizing bm with
  | nil => rfl
  | cons c rest ih =>
    show (runCalls ((GetOffsetForVMA bm c.1 c.2).2) rest).fsBlockSize = _
    rw [ih, GetOffsetForVMA_fsBlockSize]

theorem runCalls_preserves (bm : Manager) (calls : List (Nat × Nat))
    (key : Nat × Nat) (v : Nat)
    (h : lookupAlloc bm.allocations key = some v) :
    lookupAlloc ((runCalls bm calls).allocations) key = some v := by
  induction calls generalizing bm with
  | nil => exact h
  | cons c rest ih =>
    exact ih _ (GetOffsetForVMA_preserves bm c.1 c.2 key v h)

theorem runCalls_mono (bm : Manager) (calls : List (Nat × Nat)) (k : Nat)
    (hbs : bm.fsBlockSize = 2 ^ k) :
    bm.nextOffset ≤ (runCalls bm calls).nextOffset := by
  induction calls generalizing bm with
  | nil => exact Nat.le_refl _
  | cons c rest ih =>
    refine Nat.le_trans (GetOffsetForVMA_mono bm c.1 c.2 k hbs) (ih _ ?_)
    rw [GetOffsetForVMA_fsBlockSize, hbs]

theorem GetOffsetForVMA_of_some (bm : Manager) (s z v : Nat)
    (h : lookupAlloc bm.allocations (s, z) = some v) :
    (GetOffsetForVMA bm s z).1 = v := by
  rw [GetOffsetForVMA, h]

/-- C8: the staging allocator is idempotent per `(start, size)` key and
its cursor is monotone: a first call returns the cursor rounded up to
the (power-of-two) filesystem block size, so the result is
block-aligned; the cursor never decreases across any further sequence
of calls; existing entries are never moved; and after the first call
every later call on the same key — however many other calls intervene —
returns the same offset. -/
theorem GetOffsetForVMA_spec (bm : Manager) (s z : Nat) (calls : List (Nat × Nat))
    (k : Nat) (hbs : bm.fsBlockSize = 2 ^ k) :
    (lookupAlloc bm.allocations (s, z) = none →
      (GetOffsetForVMA bm s z).1 = alignUpMask bm.nextOffset bm.fsBlockSize ∧
      2 ^ k ∣ (GetOffsetForVMA bm s z).1) ∧
    bm.nextOffset ≤ (runCalls ((GetOffsetForVMA bm s z).2) calls).nextOffset ∧
    (∀ key v, lookupAlloc bm.allocations key = some v →
      lookupAlloc ((runCalls ((GetOffsetForVMA bm s z).2) calls).allocations) key =
        some v) ∧
    (GetOffsetForVMA (runCalls ((GetOffsetForVMA bm s z).2) calls) s z).1 =
      (GetOffsetForVMA bm s z).1 := by
  have hbs1 : ((GetOffsetForVMA bm s z).2).fsBlockSize = 2 ^ k := by
    rw [GetOffsetForVMA_fsBlockSize, hbs]
  refine ⟨?_, ?_, ?_, ?_⟩
  · intro hnone
    constructor
    · rw [GetOffsetForVMA, hnone]
    · rw [GetOffsetForVMA, hnone]
      show 2 ^ k ∣ alignUpMask bm.nextOffset bm.fsBlockSize
      rw [hbs]
      exact alignUpMask_dvd _ _
  · exact Nat.le_trans (GetOffsetForVMA_mono bm s z k hbs)
      (runCalls_mono _ calls k hbs1)
  · intro key v h
    exact runCalls_preserves _ calls key v (GetOffsetForVMA_preserves bm s z key v h)
  · exact GetOffsetForVMA_of_some _ s z _
      (runCalls_preserves _ calls (s, z) _ (GetOffsetForVMA_lookup_self bm s z))

/-- A sample mid-run manager: one existing entry, cursor 4146,
block size 4096 = 2^12. -/
def sampleManager : Manager :=
  { allocations := [((7, 9), 0)], nextOffset := 4146, fsBlockSize := 4096 }

/-- Witness for C8 on `sampleManager`: the first call for the fresh
key (100, 50) returns the block-aligned bumped cursor; the cursor never
drops below 4146 after an unrelated call; the existing entry stays; and
re-querying (100, 50) later returns the first offset. -/
theorem GetOffsetForVMA_spec_witness :
    ((GetOffsetForVMA sampleManager 100 50).1 =
        alignUpMask 4146 4096 ∧
      2 ^ 12 ∣ (GetOffsetForVMA sampleManager 100 50).1) ∧
    (4146 : Nat) ≤
      (runCalls ((GetOffsetForVMA sampleManager 100 50).2) [(3, 5)]).nextOffset ∧
    lookupAlloc ((runCalls ((GetOffsetForVMA sampleManager 100 50).2)
      [(3, 5)]).allocations) (7, 9) = some 0 ∧
    (GetOffsetForVMA (runCalls ((GetOffsetForVMA sampleManager 100 50).2)
        [(3, 5)]) 100 50).1 =
      (GetOffsetForVMA sampleManager 100 50).1 := by
  obtain ⟨w1, w2, w3, w4⟩ :=
    GetOffsetForVMA_spec sampleManager 100 50 [(3, 5)] 12 rfl
  exact ⟨w1 rfl, w2, w3 (7, 9) 0 rfl, w4⟩

/-! ## Pre-copy loop (internal/copy precopy, part_009)

The per-pass copy and soft-dirty reset are kernel effects with no
bearing on the control flow; the observable input is the sequence of
dirty ratios `CalculateDirtyRatio` reports, modelled as the oracle
`ratios : Nat → ℚ` (`ratios k` is the ratio measured in pass `k`, and
`ratios (executed + 1)` the post-loop re-measurement). -/

/-- Go `PreCopyResult` (part_009 lines 203-210), restricted to the fields
the control flow determines. -/
structure PreCopyResult where
  passes : Nat
  finalDirtyRatio : ℚ
  deriving Repr, DecidableEq

/-- The pass loop of `RunPreCopy` (part_009 lines 230-269): run a pass,
measure, stop when the ratio is strictly below the threshold, else
continue until the pass budget is exhausted. Returns the number of
passes executed. -/
def preCopyPassCount (ratios : Nat → ℚ) (threshold : ℚ) : Nat → Nat → Nat
  | _, 0 => 0
  | pass, rem + 1 =>
    if ratios pass < threshold then 1
    else 1 + preCopyPassCount ratios threshold (pass + 1) rem

/-- Passes actually executed by `RunPreCopy` with `maxPasses` budget
(the loop starts at pass 1). -/
def executedPasses (ratios : Nat → ℚ) (threshold : ℚ) (maxPasses : Nat) : Nat :=
  preCopyPassCount ratios threshold 1 maxPasses

/-- Go `RunPreCopy` (part_009 lines 212-296): the returned result's
`Passes` field is the literal `pce.maxPasses` (line 290), not the
executed count; `FinalDirtyRatio` is the post-loop re-measurement. -/
def RunPreCopy (ratios : Nat → ℚ) (threshold : ℚ) (maxPasses : Nat) : PreCopyResult :=
  { passes := maxPasses,
    finalDirtyRatio := ratios (executedPasses ratios threshold maxPasses + 1) }

theorem preCopyPassCount_spec (ratios : Nat → ℚ) (threshold : ℚ) :
    ∀ rem pass, 1 ≤ rem →
      1 ≤ preCopyPassCount ratios threshold pass rem ∧
      preCopyPassCount ratios threshold pass rem ≤ rem ∧
      (ratios (pass + preCopyPassCount ratios threshold pass rem - 1) < threshold ∨
        preCopyPassCount ratios threshold pass rem = rem) ∧
      (∀ j, pass ≤ j → j < pass + preCopyPassCount ratios threshold pass rem - 1 →
        ¬ratios j < threshold) := by
  intro rem
  induction rem with
  | zero => intro pass h; omega
  | succ r ih =>
    intro pass _
    by_cases hstop : ratios pass < threshold
    · rw [preCopyPassCount, if_pos hstop]
      refine ⟨by omega, by omega, Or.inl ?_, ?_⟩
      · have : pass + 1 - 1 = pass := by omega
        rw [this]; exact hstop
      · intro j h1 h2; omega
    · rw [preCopyPassCount, if_neg hstop]
      rcases Nat.eq_zero_or_pos r with hr | hr
      · subst hr
        rw [preCopyPassCount]
        refine ⟨by omega, by omega, Or.inr rfl, ?_⟩
        intro j h1 h2; omega
      · obtain ⟨ih1, ih2, ih3, ih4⟩ := ih (pass + 1) hr
        refine ⟨by omega, by omega, ?_, ?_⟩
        · rcases ih3 with h | h
          · left
            have heq : pass + (1 + preCopyPassCount ratios threshold (pass + 1) r) - 1 =
                pass + 1 + preCopyPassCount ratios threshold (pass + 1) r - 1 := by omega
            rw [heq]; exact h
          · right; omega
        · intro j h1 h2
          rcases Nat.eq_or_lt_of_le h1 with rfl | hj
          · exact hstop
          · exact ih4 j (by omega) (by omega)

/-- C6 (amended): the pre-copy loop runs passes until the measured
dirty ratio drops strictly below the threshold or the pass budget is
exhausted, but the returned result's `Passes` field always equals
`max_passes`, even when the loop stopped after fewer passes. -/
theorem RunPreCopy_spec (ratios : Nat → ℚ) (threshold : ℚ) (maxPasses : Nat)
    (hmax : 1 ≤ maxPasses) :
    (RunPreCopy ratios threshold maxPasses).passes = maxPasses ∧
    1 ≤ executedPasses ratios threshold maxPasses ∧
    executedPasses ratios threshold maxPasses ≤ maxPasses ∧
    (ratios (executedPasses ratios threshold maxPasses) < threshold ∨
      executedPasses ratios threshold maxPasses = maxPasses) ∧
    (∀ j, 1 ≤ j → j < executedPasses ratios threshold maxPasses →
      ¬ratios j < threshold) := by
  obtain ⟨h1, h2, h3, h4⟩ := preCopyPassCount_spec ratios threshold maxPasses 1 hmax
  refine ⟨rfl, h1, h2, ?_, ?_⟩
  · rcases h3 with h | h
    · left
      have heq : 1 + preCopyPassCount ratios threshold 1 maxPasses - 1 =
          preCopyPassCount ratios threshold 1 maxPasses := by omega
      rw [heq] at h
      exact h
    · right; exact h
  · intro j hj1 hj2
    rw [executedPasses] at hj2
    exact h4 j hj1 (by omega)

/-- C6 counterexample: with a dirty ratio that is always 0 and
threshold 1, a 2-pass budget stops after pass 1, yet the returned
result reports `Passes = 2` — not the executed count 1. -/
theorem RunPreCopy_passes_counterexample :
    executedPasses (fun _ => 0) 1 2 = 1 ∧
    (RunPreCopy (fun _ => 0) 1 2).passes = 2 ∧
    (RunPreCopy (fun _ => 0) 1 2).passes ≠ executedPasses (fun _ => 0) 1 2 := by
  have h1 : executedPasses (fun _ => (0 : ℚ)) 1 2 = 1 := by
    rw [executedPasses, preCopyPassCount, if_pos (by norm_num)]
  exact ⟨h1, rfl, by rw [h1]; decide⟩

/-- Witness for the amended C6 at the concrete always-converged run. -/
theorem RunPreCopy_spec_witness :
    (RunPreCopy (fun _ => 0) 1 2).passes = 2 ∧
    1 ≤ executedPasses (fun _ => 0) 1 2 ∧
    executedPasses (fun _ => 0) 1 2 ≤ 2 := by
  obtain ⟨w1, w2, w3, _, _⟩ := RunPreCopy_spec (fun _ => 0) 1 2 (by decide)
  exact ⟨w1, w2, w3⟩

/-! ## Thread freeze controller (internal/proc threads, part_010)

The ptrace surface is modelled by two oracles: `enum round` is the
task-id list `ParseThreads` returns on the `round`-th enumeration, and
`seize tid` is `FreezeThread tid`'s outcome (`none` = seized,
`some kind` = the seize/interrupt error). The unbounded Go
`for` loop is given fuel; running out of fuel returns `none` (the model
of a loop that has not yet stabilized), never a wrong answer. -/

/-- The kind of a `FreezeThread` failure: `esrch` is the
target-no-longer-exists error, the others stand for any other error. -/
inductive SeizeErrKind where
  | esrch
  | eperm
  | other
  deriving Repr, DecidableEq

/-- A failed freeze: the failing task id, the error kind, and the
threads seized so far that the rollback loop detaches
(part_010 lines 190-196). -/
structure FreezeFailure where
  kind : SeizeErrKind
  tid : Nat
  rolledBack : List Nat
  deriving Repr, DecidableEq

/-- One pass of `FreezeAllThreads` over an enumerated task list
(part_010 lines 185-200): skip already-frozen tids, seize new ones,
and on any seize error abort with the frozen-so-far set to detach. -/
def processRound (seize : Nat → Option SeizeErrKind) :
    List Nat → List Nat → Nat → Except FreezeFailure (List Nat × Nat)
  | frozen, [], newCount => .ok (frozen, newCount)
  | frozen, tid :: rest, newCount =>
    if tid ∈ frozen then processRound seize frozen rest newCount
    else
      match seize tid with
      | some e => .error { kind := e, tid := tid, rolledBack := frozen }
      | none => processRound seize (frozen ++ [tid]) rest (newCount + 1)

/-- Go `slices.SortFunc(ts, cmp.Compare by Tid)` (part_010 lines 202-206):
sorting the collected tids ascending. -/
def sortTids (ts : List Nat) : List Nat :=
  List.insertionSort (· ≤ ·) ts

/-- Go `FreezeAllThreads` (part_010 lines 175-209): enumerate and seize
until a pass adds no new thread, then return the frozen set sorted by
tid; fail (rolling back) if any seize fails. -/
def FreezeAllThreads (enum : Nat → List Nat) (seize : Nat → Option SeizeErrKind) :
    Nat → Nat → List Nat → Option (Except FreezeFailure (List Nat))
  | 0, _, _ => none
  | fuel + 1, round, frozen =>
    match processRound seize frozen (enum round) 0 with
    | .error e => some (.error e)
    | .ok (frozen2, newCount) =>
      if newCount = 0 then some (.ok (sortTids frozen2))
      else FreezeAllThreads enum seize fuel (round + 1) frozen2

theorem processRound_spec (seize : Nat → Option SeizeErrKind) :
    ∀ (tasks frozen : List Nat) (newCount : Nat),
      (∀ e, processRound seize frozen tasks newCount = .error e →
        seize e.tid = some e.kind ∧
        ∀ t ∈ e.rolledBack, t ∈ frozen ∨ seize t = none) ∧
      (∀ frozen2 n, processRound seize frozen tasks newCount = .ok (frozen2, n) →
        (∀ t ∈ frozen, t ∈ frozen2) ∧
        (∀ tid ∈ tasks, tid ∈ frozen2) ∧
        (∀ t ∈ frozen2, t ∈ frozen ∨ seize t = none) ∧
        (frozen.Nodup → frozen2.Nodup)) := by
  intro tasks
  induction tasks with
  | nil =>
    intro frozen newCount
    constructor
    · intro e h
      exact absurd h (by rw [processRound]; simp)
    · intro frozen2 n h
      rw [processRound] at h
      obtain ⟨rfl, rfl⟩ : frozen = frozen2 ∧ newCount = n := by
        have := Except.ok.inj h
        exact ⟨congrArg Prod.fst this, congrArg Prod.snd this⟩
      exact ⟨fun t ht => ht, by simp, fun t ht => Or.inl ht, id⟩
  | cons tid rest ih =>
    intro frozen newCount
    by_cases hmem : tid ∈ frozen
    · have hstep : processRound seize frozen (tid :: rest) newCount =
          processRound seize frozen rest newCount := by
        rw [processRound, if_pos hmem]
      rw [hstep]
      obtain ⟨ihe, iho⟩ := ih frozen newCount
      refine ⟨ihe, ?_⟩
      intro frozen2 n h
      obtain ⟨h1, h2, h3, h4⟩ := iho frozen2 n h
      exact ⟨h1, fun u hu => by
        rcases List.mem_cons.mp hu with rfl | hu
        · exact h1 u hmem
        · exact h2 u hu, h3, h4⟩
    · cases hs : seize tid with
      | some e0 =>
        have hstep : processRound seize frozen (tid :: rest) newCount =
            .error { kind := e0, tid := tid, rolledBack := frozen } := by
          rw [processRound, if_neg hmem, hs]
        rw [hstep]
        constructor
        · intro e h
          obtain rfl := Except.error.inj h
          exact ⟨hs, fun t ht => Or.inl ht⟩
        · intro frozen2 n h
          exact absurd h (by simp)
      | none =>
        have hstep : processRound seize frozen (tid :: rest) newCount =
            processRound seize (frozen ++ [tid]) rest (newCount + 1) := by
          rw [processRound, if_neg hmem, hs]
        rw [hstep]
        obtain ⟨ihe, iho⟩ := ih (frozen ++ [tid]) (newCount + 1)
        constructor
        · intro e h
          obtain ⟨he1, he2⟩ := ihe e h
          refine ⟨he1, fun t ht => ?_⟩
          rcases he2 t ht with hin | hn
          · rcases List.mem_append.mp hin with hin | hin
            · exact Or.inl hin
            · have : t = tid := by simpa using hin
              subst this
              exact Or.inr hs
          · exact Or.inr hn
        · intro frozen2 n h
          obtain ⟨h1, h2, h3, h4⟩ := iho frozen2 n h
          refine ⟨fun t ht => h1 t (List.mem_append.mpr (Or.inl ht)), ?_, ?_, ?_⟩
          · intro u hu
            rcases List.mem_cons.mp hu with rfl | hu
            · exact h1 u (List.mem_append.mpr (Or.inr (by simp)))
            · exact h2 u hu
          · intro t ht
            rcases h3 t ht with hin | hn
            · rcases List.mem_append.mp hin with hin | hin
              · exact Or.inl hin
              · have : t = tid := by simpa using hin
                subst this
                exact Or.inr hs
            · exact Or.inr hn
          · intro hnd
            refine h4 ?_
            simp [List.nodup_append, hnd, hmem]

theorem sortTids_perm (ts : List Nat) : List.Perm (sortTids ts) ts :=
  List.perm_insertionSort _ ts

theorem sortTids_mem (ts : List Nat) (t : Nat) : t ∈ sortTids ts ↔ t ∈ ts :=
  (sortTids_perm ts).mem_iff

theorem sortTids_pairwise_lt (ts : List Nat) (h : ts.Nodup) :
    (sortTids ts).Pairwise (· < ·) := by
  have hsorted : (sortTids ts).Pairwise (· ≤ ·) :=
    List.sorted_insertionSort (· ≤ ·) ts
  have hnd : (sortTids ts).Nodup := ((sortTids_perm ts).nodup_iff).mpr h
  exact (hsorted.and hnd).imp fun hab => Nat.lt_of_le_of_ne hab.1 hab.2

theorem FreezeAllThreads_spec (enum : Nat → List Nat)
    (seize : Nat → Option SeizeErrKind) :
    ∀ (fuel round : Nat) (frozen : List Nat),
      (∀ t ∈ frozen, seize t = none) → frozen.Nodup →
      (∀ e, FreezeAllThreads enum seize fuel round frozen = some (.error e) →
        seize e.tid = some e.kind ∧ ∀ t ∈ e.rolledBack, seize t = none) ∧
      (∀ ts, FreezeAllThreads enum seize fuel round frozen = some (.ok ts) →
        (∀ t ∈ ts, seize t = none) ∧ ts.Pairwise (· < ·) ∧
        (∀ t ∈ frozen, t ∈ ts) ∧ (∀ tid ∈ enum round, tid ∈ ts)) := by
  intro fuel
  induction fuel with
  | zero =>
    intro round frozen _ _
    refine ⟨fun e h => ?_, fun ts h => ?_⟩ <;>
      (rw [FreezeAllThreads] at h; cases h)
  | succ f ih =>
    intro round frozen hfrozen hnd
    obtain ⟨pre, pro⟩ := processRound_spec seize (enum round) frozen 0
    cases hpr : processRound seize frozen (enum round) 0 with
    | error e0 =>
      have hstep : FreezeAllThreads enum seize (f + 1) round frozen =
          some (.error e0) := by
        rw [FreezeAllThreads, hpr]
      constructor
      · intro e h
        rw [hstep] at h
        obtain rfl : e0 = e := by
          have := Option.some.inj h
          exact Except.error.inj this
        obtain ⟨h1, h2⟩ := pre e0 hpr
        exact ⟨h1, fun t ht => (h2 t ht).elim (hfrozen t) id⟩
      · intro ts h
        rw [hstep] at h
        exact absurd (Option.some.inj h) (by simp)
    | ok result =>
      obtain ⟨frozen2, n⟩ := result
      obtain ⟨h1, h2, h3, h4⟩ := pro frozen2 n hpr
      have hfrozen2 : ∀ t ∈ frozen2, seize t = none :=
        fun t ht => (h3 t ht).elim (hfrozen t) id
      have hnd2 : frozen2.Nodup := h4 hnd
      by_cases hn : n = 0
      · subst hn
        have hstep : FreezeAllThreads enum seize (f + 1) round frozen =
            some (.ok (sortTids frozen2)) := by
          rw [FreezeAllThreads, hpr]
          rfl
        constructor
        · intro e h
          rw [hstep] at h
          exact absurd (Option.some.inj h) (by simp)
        · intro ts h
          rw [hstep] at h
          obtain rfl : sortTids frozen2 = ts := Except.ok.inj (Option.some.inj h)
          refine ⟨fun t ht => hfrozen2 t ((sortTids_mem _ _).mp ht),
            sortTids_pairwise_lt _ hnd2,
            fun t ht => (sortTids_mem _ _).mpr (h1 t ht),
            fun tid ht => (sortTids_mem _ _).mpr (h2 tid ht)⟩
      · have hstep : FreezeAllThreads enum seize (f + 1) round frozen =
            FreezeAllThreads enum seize f (round + 1) frozen2 := by
          rw [FreezeAllThreads, hpr]
          simp [hn]
        obtain ⟨ihe, iho⟩ := ih (round + 1) frozen2 hfrozen2 hnd2
        constructor
        · intro e h
          rw [hstep] at h
          exact ihe e h
        · intro ts h
          rw [hstep] at h
          obtain ⟨g1, g2, g3, _⟩ := iho ts h
          exact ⟨g1, g2, fun t ht => g3 t (h1 t ht),
            fun tid ht => g3 tid (h2 tid ht)⟩

/-- C7 (amended): during `FreezeAllThreads`, a seize failure of any
kind — including the target-not-found error for a task id that
vanished between enumeration and seize — aborts the whole freeze with
an error, after detaching every thread seized so far (all of which had
seized successfully); no task id is skipped. -/
theorem FreezeAllThreads_error_rollback (enum : Nat → List Nat)
    (seize : Nat → Option SeizeErrKind) (fuel : Nat) (e : FreezeFailure)
    (h : FreezeAllThreads enum seize fuel 0 [] = some (.error e)) :
    seize e.tid = some e.kind ∧ ∀ t ∈ e.rolledBack, seize t = none :=
  ((FreezeAllThreads_spec enum seize fuel 0 [] (by simp) List.nodup_nil).1) e h

/-- A freeze world in which the only task vanishes before seize. -/
def vanishEnum : Nat → List Nat := fun _ => [7]

/-- Seize always fails with the target-not-found error. -/
def vanishSeize : Nat → Option SeizeErrKind := fun _ => some .esrch

/-- C7 counterexample: task 7's seize fails with target-not-found, and
`FreezeAllThreads` fails with rollback instead of skipping the thread
and returning the successful empty freeze the claim demands. -/
theorem FreezeAllThreads_esrch_fatal_counterexample :
    FreezeAllThreads vanishEnum vanishSeize 2 0 [] =
      some (.error { kind := .esrch, tid := 7, rolledBack := [] }) ∧
    FreezeAllThreads vanishEnum vanishSeize 2 0 [] ≠ some (.ok (sortTids [])) := by
  refine ⟨rfl, fun h => ?_⟩
  rw [show FreezeAllThreads vanishEnum vanishSeize 2 0 [] =
    some (.error { kind := .esrch, tid := 7, rolledBack := [] }) from rfl] at h
  exact Except.noConfusion (Option.some.inj h)

/-- A freeze world where task 1 seizes fine and task 2 has vanished. -/
def mixedEnum : Nat → List Nat := fun _ => [1, 2]

/-- Task 2's seize fails with target-not-found; all others succeed. -/
def mixedSeize : Nat → Option SeizeErrKind :=
  fun t => if t = 2 then some .esrch else none

/-- Witness for the amended C7: in the mixed world the freeze fails on
task 2 with the target-not-found kind, and the rolled-back thread 1
had been seized successfully. -/
theorem FreezeAllThreads_error_rollback_witness :
    mixedSeize 2 = some SeizeErrKind.esrch ∧ mixedSeize 1 = none := by
  obtain ⟨w1, w2⟩ := FreezeAllThreads_error_rollback mixedEnum mixedSeize 2
    { kind := .esrch, tid := 2, rolledBack := [1] } rfl
  exact ⟨w1, w2 1 (by simp)⟩

/-! ## Note assembly order (internal/elfcore notes, `CreateCoreNotes`)

`CreateCoreNotes(pid, threads, fileTable)` builds the ordered note
list; the two notes whose bodies come from `/proc` reads
(`createPRPSInfoNote`, `createAuxvNote`) enter through parameters: the
prpsinfo note as the `Except` result of its builder, the auxv note
through the raw file contents fed to the embedded `createAuxvNote`. -/

/-- Go `createFPRegsetNote` (internal/elfcore notes): zero-filled 512-byte
x87+SSE placeholder. -/
def createFPRegsetNote (_thread : Thread) : Note :=
  { name := "CORE", type := NT_FPREGSET, data := List.replicate 512 0 }

/-- Go `createXStateNote` (internal/elfcore notes): zero-filled 1024-byte
XSAVE placeholder. -/
def createXStateNote (_thread : Thread) : Note :=
  { name := "CORE", type := NT_XSTATE, data := List.replicate 1024 0 }

/-- Go `createFileNote` (part_015 lines 379-415): count, page size 4096,
`(start, end, file offset)` triples, then the null-terminated paths
(ASCII bytes). -/
def createFileNote (fileTable : List FileEntry) : Note :=
  let buf := uint64LE fileTable.length ++ uint64LE 4096
  let buf := buf ++
    (fileTable.map fun e => uint64LE e.start ++ uint64LE e.«end» ++ uint64LE e.fileOfs).join
  let buf := buf ++ (fileTable.map fun e => e.path.data.map Char.toNat ++ [0]).join
  { name := "CORE", type := NT_FILE, data := buf }

/-- Go `CreateCoreNotes` (internal/elfcore notes lines 94-136): one
NT_PRSTATUS per thread, then one NT_FPREGSET per thread, then one
NT_XSTATE per thread, then NT_PRPSINFO, NT_AUXV, and NT_FILE when the
file table is non-empty; a failing prpsinfo or auxv builder fails the
whole call. -/
def CreateCoreNotes (threads : List Thread) (fileTable : List FileEntry)
    (prpsinfoRes : Except String Note) (auxvData : List Nat) :
    Except String (List Note) :=
  let notes : List Note := []
  let notes := notes ++ threads.map createPRStatusNote
  let notes := notes ++ threads.map createFPRegsetNote
  let notes := notes ++ threads.map createXStateNote
  match prpsinfoRes with
  | .error e => .error e
  | .ok prpsinfo =>
    let notes := notes ++ [prpsinfo]
    match createAuxvNote auxvData with
    | .error e => .error e
    | .ok auxv =>
      let notes := notes ++ [auxv]
      let notes := if fileTable.length > 0 then notes ++ [createFileNote fileTable]
        else notes
      .ok notes

theorem take_left_of_length {α : Type} (l₁ l₂ : List α) (n : Nat)
    (h : l₁.length = n) : (l₁ ++ l₂).take n = l₁ := by
  subst h
  exact List.take_left l₁ l₂

theorem drop_left_of_length {α : Type} (l₁ l₂ : List α) (n : Nat)
    (h : l₁.length = n) : (l₁ ++ l₂).drop n = l₂ := by
  subst h
  exact List.drop_left l₁ l₂

theorem CreateCoreNotes_groups (threads : List Thread) (fileTable : List FileEntry)
    (prpsinfoRes : Except String Note) (auxvData : List Nat) (notes : List Note)
    (h : CreateCoreNotes threads fileTable prpsinfoRes auxvData = .ok notes) :
    notes.take threads.length = threads.map createPRStatusNote ∧
    (notes.drop threads.length).take threads.length =
      threads.map createFPRegsetNote ∧
    (notes.drop (threads.length + threads.length)).take threads.length =
      threads.map createXStateNote := by
  cases hp : prpsinfoRes with
  | error e =>
    rw [CreateCoreNotes.eq_def, hp] at h
    cases h
  | ok prpsinfo =>
    cases ha : createAuxvNote auxvData with
    | error e =>
      rw [CreateCoreNotes.eq_def, hp, ha] at h
      cases h
    | ok auxv =>
      have hbase : notes =
          ((((threads.map createPRStatusNote ++ threads.map createFPRegsetNote) ++
            threads.map createXStateNote) ++ [prpsinfo]) ++ [auxv]) ++
          (if fileTable.length > 0 then [createFileNote fileTable] else []) := by
        rw [CreateCoreNotes.eq_def, hp, ha] at h
        have hh := Except.ok.inj h
        rw [← hh]
        by_cases hft : fileTable.length > 0
        · rw [if_pos hft, if_pos hft, List.nil_append]
        · rw [if_neg hft, if_neg hft, List.nil_append, List.append_nil]
      have hlen1 : (threads.map createPRStatusNote).length = threads.length :=
        List.length_map _ _
      have hlen2 : (threads.map createFPRegsetNote).length = threads.length :=
        List.length_map _ _
      have hlen3 : (threads.map createXStateNote).length = threads.length :=
        List.length_map _ _
      have hrest : notes = threads.map createPRStatusNote ++
          (threads.map createFPRegsetNote ++ (threads.map createXStateNote ++
            ([prpsinfo] ++ ([auxv] ++
              (if fileTable.length > 0 then [createFileNote fileTable] else []))))) := by
        rw [hbase]
        simp only [List.append_assoc]
      refine ⟨?_, ?_, ?_⟩
      · rw [hrest, take_left_of_length _ _ _ hlen1]
      · rw [hrest, drop_left_of_length _ _ _ hlen1, take_left_of_length _ _ _ hlen2]
      · rw [hrest, ← List.drop_drop, drop_left_of_length _ _ _ hlen1,
          drop_left_of_length _ _ _ hlen2, take_left_of_length _ _ _ hlen3]

/-- C9: a successful freeze returns the thread ids strictly sorted
ascending with no duplicates, and `CreateCoreNotes` consequently emits
the per-thread NT_PRSTATUS notes — and likewise the NT_FPREGSET and
NT_X86_XSTATE groups — in that ascending-tid order. -/
theorem FreezeAllThreads_sorted_note_order (enum : Nat → List Nat)
    (seize : Nat → Option SeizeErrKind) (fuel : Nat) (ts : List Nat)
    (hok : FreezeAllThreads enum seize fuel 0 [] = some (.ok ts)) :
    ts.Pairwise (· < ·) ∧
    ∀ (regs : Nat → List Nat) (fileTable : List FileEntry)
      (prpsinfoRes : Except String Note) (auxvData : List Nat) (notes : List Note),
      CreateCoreNotes (ts.map fun tid => { tid := tid, registers := regs tid })
          fileTable prpsinfoRes auxvData = .ok notes →
      notes.take ts.length =
        (ts.map fun tid => createPRStatusNote { tid := tid, registers := regs tid }) ∧
      (notes.drop ts.length).take ts.length =
        (ts.map fun tid => createFPRegsetNote { tid := tid, registers := regs tid }) ∧
      (notes.drop (ts.length + ts.length)).take ts.length =
        (ts.map fun tid => createXStateNote { tid := tid, registers := regs tid }) := by
  have hsorted :=
    (((FreezeAllThreads_spec enum seize fuel 0 [] (by simp) List.nodup_nil).2) ts hok).2.1
  refine ⟨hsorted, ?_⟩
  intro regs fileTable prpsinfoRes auxvData notes h
  have hlen : (ts.map fun tid =>
      ({ tid := tid, registers := regs tid } : Thread)).length = ts.length :=
    List.length_map _ _
  obtain ⟨g1, g2, g3⟩ := CreateCoreNotes_groups _ fileTable prpsinfoRes auxvData notes h
  rw [hlen] at g1 g2 g3
  rw [List.map_map] at g1 g2 g3
  exact ⟨g1, g2, g3⟩

/-- A freeze world with two threads enumerated out of tid order. -/
def steadyEnum : Nat → List Nat := fun _ => [3, 1]

/-- All seizes succeed. -/
def steadySeize : Nat → Option SeizeErrKind := fun _ => none

/-- A sample prpsinfo note for the witness. -/
def samplePrpsinfo : Note :=
  { name := "CORE", type := NT_PRPSINFO, data := List.replicate 136 0 }

/-- The notes the builder produces for the frozen threads [1, 3] with
empty register buffers, empty file table and empty auxv. -/
def sampleNotes : List Note :=
  [createPRStatusNote { tid := 1, registers := [] },
   createPRStatusNote { tid := 3, registers := [] },
   createFPRegsetNote { tid := 1, registers := [] },
   createFPRegsetNote { tid := 3, registers := [] },
   createXStateNote { tid := 1, registers := [] },
   createXStateNote { tid := 3, registers := [] },
   samplePrpsinfo,
   { name := "CORE", type := NT_AUXV, data := List.replicate 16 0 }]

/-- Witness for C9: the freeze over `steadyEnum` succeeds with the
sorted tids [1, 3], and the note groups come out in that order. -/
theorem FreezeAllThreads_sorted_note_order_witness :
    (sortTids [3, 1]).Pairwise (· < ·) ∧
    sampleNotes.take 2 =
      [createPRStatusNote { tid := 1, registers := [] },
       createPRStatusNote { tid := 3, registers := [] }] ∧
    (sampleNotes.drop 2).take 2 =
      [createFPRegsetNote { tid := 1, registers := [] },
       createFPRegsetNote { tid := 3, registers := [] }] ∧
    (sampleNotes.drop 4).take 2 =
      [createXStateNote { tid := 1, registers := [] },
       createXStateNote { tid := 3, registers := [] }] := by
  obtain ⟨w1, w2⟩ :=
    FreezeAllThreads_sorted_note_order steadyEnum steadySeize 2 (sortTids [3, 1]) rfl
  obtain ⟨g1, g2, g3⟩ := w2 (fun _ => []) [] (.ok samplePrpsinfo) [] sampleNotes rfl
  exact ⟨w1, g1, g2, g3⟩

end Livecore
